import Mathlib

/-!
Shallow embedding of the licentia tool (c4milo/licentia).

File contents are modelled as `GoStr := List Char`.  The functions below
translate, line for line, the string manipulation performed by the Go
source (`bufio.Scanner` with `ScanLines`, `strings.TrimSpace`,
`strings.NewReplacer`, `strings.Replace`, `strings.Index`,
`strings.TrimRight`, `bytes.HasPrefix`, `bytes.TrimPrefix/TrimSuffix`).

File-system effects (read/write) are made explicit: a read result is an
`Option GoStr` (`none` = read error) and a function's outcome records the
content written (`Option GoStr`, `none` = no write performed) together
with the error it returns (`Option Unit`, `none` = nil error).  Writes
themselves are assumed to succeed; the license catalog (the statik asset
store, which is data outside the repository) is passed in as `Option`
arguments: `none` models `Asset` returning an error (absent asset).
-/

set_option autoImplicit false
set_option maxRecDepth 100000

/-- Byte strings of the Go program, modelled as lists of characters. -/
abbrev GoStr := List Char

/-- Coerce a Lean string literal to the model's string type. -/
def gs (s : String) : GoStr := s.data

/-- Whitespace test used by `strings.TrimSpace` (ASCII part of
`unicode.IsSpace`; the repository only manipulates ASCII text). -/
def isSpaceGo (c : Char) : Bool :=
  c = ' ' || c = '\t' || c = '\n' || c = '\x0b' || c = '\x0c' || c = '\r'

/-- `strings.TrimLeft` by whitespace. -/
def trimLeftGo (s : GoStr) : GoStr := s.dropWhile isSpaceGo

/-- `strings.TrimRight` by whitespace. -/
def trimRightSpaceGo (s : GoStr) : GoStr := (s.reverse.dropWhile isSpaceGo).reverse

/-- `strings.TrimSpace`. -/
def trimSpaceGo (s : GoStr) : GoStr := trimRightSpaceGo (trimLeftGo s)

/-- `strings.TrimRight(s, "\n")`. -/
def trimRightNlGo (s : GoStr) : GoStr := (s.reverse.dropWhile (· = '\n')).reverse

/-- `dropCR` of `bufio.ScanLines`: drop one trailing carriage return. -/
def dropCR (s : GoStr) : GoStr :=
  if s.getLast? = some '\r' then s.dropLast else s

/-- Helper of `splitNl`: prepend a character to the first token. -/
def consHead (c : Char) : List GoStr → List GoStr
  | [] => [[c]]
  | t :: ts => (c :: t) :: ts

/-- Raw split on newline characters, producing the token list of
`bufio.Scanner`/`ScanLines` before carriage-return stripping:
`""` gives no token, a trailing newline does not create an empty final
token, data after the last newline forms a final token. -/
def splitNl : GoStr → List GoStr
  | [] => []
  | c :: cs => if c = '\n' then [] :: splitNl cs else consHead c (splitNl cs)

/-- The token sequence produced by `bufio.Scanner` with `ScanLines`
(each token has a single trailing `\r` removed). -/
def splitLinesGo (s : GoStr) : List GoStr := (splitNl s).map dropCR

/-- Re-join tokens, writing `line + "\n"` for every token (the way every
scanner loop in the source writes lines back into a buffer). -/
def joinNL (ls : List GoStr) : GoStr := ls.foldr (fun l acc => l ++ '\n' :: acc) []

/-- `@@owner@@`, the owner placeholder of the catalog templates. -/
def ownerPat : GoStr := ['@', '@', 'o', 'w', 'n', 'e', 'r', '@', '@']

/-- `@@year@@`, the year placeholder of the catalog templates. -/
def yearPat : GoStr := ['@', '@', 'y', 'e', 'a', 'r', '@', '@']

example : ownerPat = gs "@@owner@@" ∧ yearPat = gs "@@year@@" := by decide

/-- Fuel-indexed worker for `renderTemplate` (the
`strings.NewReplacer("@@owner@@", owner, "@@year@@", year)` of the
source): scan left to right, at each position try the patterns in
argument order, never rescanning replacement text. -/
def renderAux (o y : GoStr) : Nat → GoStr → GoStr
  | 0, s => s
  | _ + 1, [] => []
  | n + 1, c :: cs =>
    if ownerPat.isPrefixOf (c :: cs) then
      o ++ renderAux o y n ((c :: cs).drop ownerPat.length)
    else if yearPat.isPrefixOf (c :: cs) then
      y ++ renderAux o y n ((c :: cs).drop yearPat.length)
    else
      c :: renderAux o y n cs

/-- `replacer.Replace`: substitute `@@owner@@` and `@@year@@`. -/
def renderTemplate (o y s : GoStr) : GoStr := renderAux o y s.length s

/-- Fuel-indexed worker for `removeAllGo`. -/
def removeAux (pat : GoStr) : Nat → GoStr → GoStr
  | 0, s => s
  | _ + 1, [] => []
  | n + 1, c :: cs =>
    if pat.isPrefixOf (c :: cs) then
      removeAux pat n ((c :: cs).drop pat.length)
    else
      c :: removeAux pat n cs

/-- `strings.Replace(s, pat, "", -1)`: delete every (non-overlapping,
leftmost-first) occurrence of `pat`.  For an empty pattern Go inserts the
empty replacement everywhere, returning `s` unchanged. -/
def removeAllGo (pat s : GoStr) : GoStr :=
  if pat = [] then s else removeAux pat s.length s

/-- `strings.Index`: position of the first occurrence, `none` for Go's `-1`. -/
def indexOfGo (pat : GoStr) : GoStr → Option Nat
  | [] => if pat.isPrefixOf ([] : GoStr) then some 0 else none
  | c :: cs =>
    if pat.isPrefixOf (c :: cs) then some 0
    else (indexOfGo pat cs).map (· + 1)

/-- `prependEOLComment` of the source: split the template into scanner
lines and emit `strings.TrimSpace(eol + " " + line)` plus a newline for
each; empty input emits nothing. -/
def prependEOLComment (eol newdata : GoStr) : GoStr :=
  if newdata = [] then []
  else joinNL ((splitLinesGo newdata).map (fun line => trimSpaceGo (eol ++ ' ' :: line)))

/-- The license types of the source (`LicenseType` constants plus the
`UNKNOWN` sentinel). -/
inductive LicenseType where
  | apache2 | freebsd | lgpl3 | lgpl2 | mit | mpl2 | newbsd
  | gpl3 | gpl2 | cddl | epl | unlicense | unknown
deriving DecidableEq

/-- The license constants of the external `go-license` library that the
`switch` in `detectLicense` inspects; `other` stands for any further
value of the library's type. -/
inductive LibLicense where
  | MIT | NewBSD | FreeBSD | Apache20 | MPL20 | GPL20 | GPL30
  | LGPL21 | LGPL30 | CDDL10 | EPL10 | other
deriving DecidableEq

/-- The `switch l.Type` mapping at the end of `detectLicense` (note the
source maps both LGPL 2.1 and LGPL 3.0 to `lgpl2`; the default case is
`unknown`). -/
def mapLib : LibLicense → LicenseType
  | .MIT => .mit
  | .NewBSD => .newbsd
  | .FreeBSD => .freebsd
  | .Apache20 => .apache2
  | .MPL20 => .mpl2
  | .GPL20 => .gpl2
  | .GPL30 => .gpl3
  | .LGPL21 => .lgpl2
  | .LGPL30 => .lgpl2
  | .CDDL10 => .cddl
  | .EPL10 => .epl
  | .other => .unknown

/-- The copyright-line test of `removeLicense`:
`bytes.HasPrefix(line, []byte(config.EOLCommentStyle+" Copyright"))`. -/
def copyrightPat (eol : GoStr) : GoStr := eol ++ gs " Copyright"

/-- The scanner loop of `removeLicense` (lines 290-300 of the source):
skip every line whose bytes start with `eol + " Copyright"`, write every
other line back followed by a newline. -/
def stripLoop (eol : GoStr) : List GoStr → GoStr
  | [] => []
  | l :: ls =>
    if (copyrightPat eol).isPrefixOf l then stripLoop eol ls
    else l ++ '\n' :: stripLoop eol ls

/-- The blank-line cleanup of `removeLicense`:
`if i := strings.Index(unlicensedData, "\npackage"); i >= 3 then
unlicensedData = strings.TrimRight(unlicensedData[:i], "\n") + unlicensedData[i:]`. -/
def collapseGo (s : GoStr) : GoStr :=
  match indexOfGo (gs "\npackage") s with
  | some i => if 3 ≤ i then trimRightNlGo (s.take i) ++ s.drop i else s
  | none => s

/-- The in-memory transformation of `removeLicense` once the header asset
`h` has been found: render the comment-prefixed header, strip
copyright-prefixed lines, delete every occurrence of the rendered header,
collapse newlines before a `"\npackage"` marker at index ≥ 3. -/
def removeLicensePure (h eol content : GoStr) : GoStr :=
  collapseGo (removeAllGo (prependEOLComment eol h)
    (stripLoop eol (splitLinesGo content)))

/-- `removeLicense` with its file-system effects made explicit.
`headerAsset` is the result of `Asset(licenses/<type>.header)` (`none` =
error, so return nil without touching the file).  `readResult` is the
result of `ioutil.ReadFile` — note the source never checks this error:
on a failed read it proceeds with the empty byte slice.  The first
component is the content written back (`none` = no write), the second
the returned error. -/
def removeLicenseGo (headerAsset : Option GoStr) (eol : GoStr)
    (readResult : Option GoStr) : Option GoStr × Option Unit :=
  match headerAsset with
  | none => (none, none)
  | some h => (some (removeLicensePure h eol (readResult.getD [])), none)

/-- The content `insertLicense` builds in memory: comment-prefixed
rendered copyright block (when the `.copyright` asset exists), then the
comment-prefixed rendering of `plus + header` where `plus` is `"\n"`
exactly when the copyright asset existed, then one extra newline, then
the original content. -/
def insertLicensePure (copyrightAsset headerAsset : Option GoStr)
    (o y eol content : GoStr) : GoStr :=
  (match copyrightAsset with
   | none => []
   | some cp => prependEOLComment eol (renderTemplate o y cp)) ++
  (match headerAsset with
   | none => []
   | some hd =>
     prependEOLComment eol
       (renderTemplate o y ((if copyrightAsset.isSome then gs "\n" else []) ++ hd))) ++
  '\n' :: content

/-- `insertLicense` with effects explicit: the open/copy of the original
file is error-checked (a failed read returns the error and performs no
write). -/
def insertLicenseGo (copyrightAsset headerAsset : Option GoStr)
    (o y eol : GoStr) (readResult : Option GoStr) : Option GoStr × Option Unit :=
  match readResult with
  | none => (none, some ())
  | some content =>
    (some (insertLicensePure copyrightAsset headerAsset o y eol content), none)

/-- `Dump`: error iff the full-text asset is absent; the `.copyright`
asset error is discarded (`lcopyright, _ := Asset(...)`), its data
prepended, and the owner/year replacer applied to the concatenation. -/
def DumpGo (fullText copyrightAsset : Option GoStr) (o y : GoStr) : Option GoStr :=
  match fullText with
  | none => none
  | some d => some (renderTemplate o y (copyrightAsset.getD [] ++ d))

/-- `bytes.TrimPrefix`. -/
def trimPrefixGo (pre s : GoStr) : GoStr :=
  if pre.isPrefixOf s then s.drop pre.length else s

/-- Drop the last `n` elements (Go's `s[:len(s)-n]`). -/
def dropTail (s : GoStr) (n : Nat) : GoStr := s.take (s.length - n)

/-- `bytes.TrimSuffix`. -/
def trimSuffixGo (suf s : GoStr) : GoStr :=
  if suf.isSuffixOf s then dropTail s suf.length else s

/-- The leading-comment normalization loop of `detectLicense`: stop at
the first line starting `"package "`; strip `//`, `/*`, `*/`; skip
build-tag lines (first char `+`) and lines whose trimmed text starts
with `Copyright`; accumulate each remaining trimmed line plus a
newline. -/
def normalizeLeading : List GoStr → GoStr
  | [] => []
  | l :: ls =>
    if (gs "package ").isPrefixOf l then []
    else
      let line := trimSuffixGo (gs "*/") (trimPrefixGo (gs "/*") (trimPrefixGo (gs "//") l))
      if line ≠ [] ∧ (line.head? = some '+' ∨ (gs "Copyright").isPrefixOf (trimSpaceGo line))
      then normalizeLeading ls
      else trimSpaceGo line ++ '\n' :: normalizeLeading ls

/-- Outcome of the external classifier `license.GuessType` on the
normalized text: a recognized library type, the
`ErrUnrecognizedLicense` error, or any other failure. -/
inductive GuessOutcome where
  | matched (t : LibLicense)
  | unrecognized
  | failure
deriving DecidableEq

/-- `detectLicense` with the external classifier (the `go-license`
dependency, not part of this repository) abstracted as `guess`:
unreadable file propagates an error; `ErrUnrecognizedLicense` yields
`(unknown, scanner.Err())`, which for an in-memory healthy scan is the
nil error; other classifier failures propagate; a match is mapped
through the `switch`. -/
def detectLicenseGo (guess : GoStr → GuessOutcome)
    (readResult : Option GoStr) : LicenseType × Option Unit :=
  match readResult with
  | none => (.unknown, some ())
  | some content =>
    match guess (trimSpaceGo (normalizeLeading (splitLinesGo content))) with
    | .unrecognized => (.unknown, none)
    | .failure => (.unknown, some ())
    | .matched t => (mapLib t, none)

/-- The `Detect` batch over a file list: one `fileLicense` entry is
appended for every file whatever its outcome, per-file errors are
accumulated into the aggregate `Error`, and the aggregate is returned
only when non-empty (`errors.IsEmpty()`).  The concurrent fan-out of the
source is modelled in program order; the claims under study only concern
the multiset of entries and errors, which every interleaving shares. -/
def DetectGo {α ε : Type} (files : List α) (run : α → LicenseType × Option ε) :
    List (α × LicenseType) × Option (List ε) :=
  let types := files.map (fun f => (f, (run f).1))
  let errs := files.filterMap (fun f => (run f).2)
  (types, if errs.isEmpty then none else some errs)

/-- The mpl2 header template of the catalog.  The catalog assets are not
part of the repository's source tree; this text is pinned by the
repository's own test (`TestSetUnset` in the test file asserts that
setting mpl2 with comment style `//` yields exactly these three lines
prefixed with `// `, followed by a blank line). -/
def mpl2Header : GoStr :=
  gs "This Source Code Form is subject to the terms of the Mozilla Public\nLicense, version 2.0. If a copy of the MPL was not distributed with this\nfile, You can obtain one at http://mozilla.org/MPL/2.0/.\n"

/-- The rendered mpl2 block the test expects after `Set`. -/
def mpl2Rendered : GoStr :=
  gs "// This Source Code Form is subject to the terms of the Mozilla Public\n// License, version 2.0. If a copy of the MPL was not distributed with this\n// file, You can obtain one at http://mozilla.org/MPL/2.0/.\n"

-- Sanity checks of the string model against Go behaviour.
example : splitLinesGo (gs "a\n") = [gs "a"] := by decide
example : splitLinesGo (gs "a\n\n") = [gs "a", []] := by decide
example : splitLinesGo (gs "a") = [gs "a"] := by decide
example : splitLinesGo (gs "a\r\nb") = [gs "a", gs "b"] := by decide
example : splitLinesGo [] = [] := by decide
example : trimSpaceGo (gs "  a b\t\n") = gs "a b" := by decide
example : renderTemplate (gs "Me") (gs "2026") (gs "(c) @@year@@ @@owner@@!") =
    gs "(c) 2026 Me!" := by decide
example : removeAllGo (gs "ab") (gs "xababy") = gs "xy" := by decide
example : indexOfGo (gs "\npackage") (gs "a\n\n\npackage x") = some 3 := by decide
example : prependEOLComment (gs "//") (gs "Hello\n\nWorld\n") =
    gs "// Hello\n//\n// World\n" := by decide

-- The model reproduces the repository's own TestSetUnset expectations:
-- Set(mpl2, "Test", "//") on an empty file writes the rendered block plus
-- a blank line, and Unset on that result writes back a single newline.
example : insertLicenseGo none (some mpl2Header) (gs "Test") (gs "2014") (gs "//")
    (some []) = (some (mpl2Rendered ++ [' ']), none) → False := by decide
example : insertLicenseGo none (some mpl2Header) (gs "Test") (gs "2014") (gs "//")
    (some []) = (some (mpl2Rendered ++ ['\n']), none) := by decide
example : removeLicenseGo (some mpl2Header) (gs "//")
    (some (mpl2Rendered ++ ['\n'])) = (some ['\n'], none) := by decide

/-! ### Structural lemmas about the string model -/

/-- A scanner-shaped line: free of newlines and of a trailing carriage
return, so that joining it with a trailing newline and re-scanning
recovers it. -/
def goodLine (l : GoStr) : Prop := '\n' ∉ l ∧ l.getLast? ≠ some '\r'

instance (l : GoStr) : Decidable (goodLine l) := by
  unfold goodLine; infer_instance

theorem splitNl_line (l rest : GoStr) (h : '\n' ∉ l) :
    splitNl (l ++ '\n' :: rest) = l :: splitNl rest := by
  induction l with
  | nil => simp [splitNl]
  | cons c cs ih =>
    have hc : c ≠ '\n' := fun hc => h (hc ▸ List.mem_cons_self c cs)
    have hcs : '\n' ∉ cs := fun hm => h (List.mem_cons_of_mem c hm)
    simp only [List.cons_append, splitNl, if_neg hc, List.append_eq]
    rw [ih hcs]
    simp only [consHead]

theorem dropCR_of_goodLine (l : GoStr) (h : goodLine l) : dropCR l = l := by
  unfold dropCR
  rw [if_neg h.2]

theorem splitLinesGo_line (l rest : GoStr) (h : goodLine l) :
    splitLinesGo (l ++ '\n' :: rest) = l :: splitLinesGo rest := by
  unfold splitLinesGo
  rw [splitNl_line l rest h.1, List.map_cons, dropCR_of_goodLine l h]

theorem joinNL_cons (l : GoStr) (ls : List GoStr) :
    joinNL (l :: ls) = l ++ '\n' :: joinNL ls := rfl

theorem joinNL_append (a b : List GoStr) :
    joinNL (a ++ b) = joinNL a ++ joinNL b := by
  induction a with
  | nil => rfl
  | cons l ls ih => simp [joinNL_cons, ih]

theorem splitLinesGo_joinNL_append (ls : List GoStr) (rest : GoStr)
    (h : ∀ l ∈ ls, goodLine l) :
    splitLinesGo (joinNL ls ++ rest) = ls ++ splitLinesGo rest := by
  induction ls with
  | nil => rfl
  | cons l ls ih =>
    rw [joinNL_cons, List.append_assoc, List.cons_append,
      splitLinesGo_line l _ (h l (List.mem_cons_self l ls)),
      ih (fun x hx => h x (List.mem_cons_of_mem l hx))]
    rfl

theorem splitLinesGo_joinNL (ls : List GoStr) (h : ∀ l ∈ ls, goodLine l) :
    splitLinesGo (joinNL ls) = ls := by
  have := splitLinesGo_joinNL_append ls [] h
  simpa [splitLinesGo, splitNl] using this

theorem mem_dropWhile {p : Char → Bool} {l : GoStr} {c : Char}
    (h : c ∈ l.dropWhile p) : c ∈ l := by
  induction l with
  | nil => simp at h
  | cons a t ih =>
    by_cases ha : p a
    · exact List.mem_cons_of_mem a (ih (by simpa [List.dropWhile, ha] using h))
    · simpa [List.dropWhile, ha] using h

theorem head?_dropWhile {p : Char → Bool} {l : GoStr} {c : Char}
    (h : (l.dropWhile p).head? = some c) : p c = false := by
  induction l with
  | nil => simp at h
  | cons a t ih =>
    by_cases ha : p a
    · exact ih (by simpa [List.dropWhile, ha] using h)
    · have : a = c := by simpa [List.dropWhile, ha] using h
      simpa [← this] using ha

theorem getLast?_reverse_eq_head? (l : GoStr) : l.reverse.getLast? = l.head? := by
  cases l with
  | nil => rfl
  | cons a t => simp [List.getLast?_concat]

theorem mem_trimSpaceGo {s : GoStr} {c : Char} (h : c ∈ trimSpaceGo s) : c ∈ s := by
  unfold trimSpaceGo trimRightSpaceGo trimLeftGo at h
  rw [List.mem_reverse] at h
  have h2 := mem_dropWhile h
  rw [List.mem_reverse] at h2
  exact mem_dropWhile h2

theorem trimSpaceGo_getLast_not_space {s : GoStr} {c : Char}
    (h : (trimSpaceGo s).getLast? = some c) : isSpaceGo c = false := by
  unfold trimSpaceGo trimRightSpaceGo at h
  rw [getLast?_reverse_eq_head?] at h
  exact head?_dropWhile h

theorem goodLine_trimSpaceGo (s : GoStr) (h : '\n' ∉ s) : goodLine (trimSpaceGo s) := by
  refine ⟨fun hm => h (mem_trimSpaceGo hm), fun hl => ?_⟩
  have := trimSpaceGo_getLast_not_space hl
  simp [isSpaceGo] at this

theorem splitNl_no_nl (s : GoStr) : ∀ l ∈ splitNl s, '\n' ∉ l := by
  induction s with
  | nil => simp [splitNl]
  | cons c cs ih =>
    by_cases hc : c = '\n'
    · subst hc
      simp only [splitNl, if_pos rfl]
      intro l hl
      rcases List.mem_cons.mp hl with h | h
      · subst h; simp
      · exact ih l h
    · simp only [splitNl, if_neg hc]
      intro l hl
      cases hsp : splitNl cs with
      | nil =>
        rw [hsp] at hl
        simp only [consHead] at hl
        rcases List.mem_cons.mp hl with h | h
        · subst h
          intro hm
          have hcm : '\n' = c := by simpa using hm
          exact hc hcm.symm
        · simp at h
      | cons t ts =>
        rw [hsp] at hl
        simp only [consHead] at hl
        rcases List.mem_cons.mp hl with h | h
        · subst h
          intro hm
          rcases List.mem_cons.mp hm with h | h
          · exact hc h.symm
          · exact ih t (hsp ▸ List.mem_cons_self t ts) h
        · exact ih l (hsp ▸ List.mem_cons_of_mem t h)

theorem mem_dropCR {l : GoStr} {c : Char} (h : c ∈ dropCR l) : c ∈ l := by
  unfold dropCR at h
  split at h
  · exact List.mem_of_mem_dropLast h
  · exact h

theorem splitLinesGo_no_nl (s : GoStr) : ∀ l ∈ splitLinesGo s, '\n' ∉ l := by
  intro l hl
  unfold splitLinesGo at hl
  rcases List.mem_map.mp hl with ⟨t, ht, rfl⟩
  exact fun hm => splitNl_no_nl s t ht (mem_dropCR hm)

/-- The rewriting of `prependEOLComment` as an unconditional map-join
(the empty-input early return coincides with the general formula). -/
theorem prependEOLComment_eq (eol d : GoStr) :
    prependEOLComment eol d =
      joinNL ((splitLinesGo d).map (fun line => trimSpaceGo (eol ++ ' ' :: line))) := by
  unfold prependEOLComment
  split
  · subst d; rfl
  · rfl

/-- Every line emitted by `prependEOLComment` is scanner-shaped, as long
as the comment style itself contains no newline. -/
theorem prependEOL_lines_good (eol d : GoStr) (h : '\n' ∉ eol) :
    ∀ l ∈ (splitLinesGo d).map (fun line => trimSpaceGo (eol ++ ' ' :: line)),
      goodLine l := by
  intro l hl
  rcases List.mem_map.mp hl with ⟨line, hline, rfl⟩
  apply goodLine_trimSpaceGo
  intro hm
  rcases List.mem_append.mp hm with hm | hm
  · exact h hm
  · rcases List.mem_cons.mp hm with hm | hm
    · exact absurd hm (by decide)
    · exact splitLinesGo_no_nl d line hline hm

theorem stripLoop_eq_filter (eol : GoStr) (ls : List GoStr) :
    stripLoop eol ls =
      joinNL (ls.filter (fun l => ! (copyrightPat eol).isPrefixOf l)) := by
  induction ls with
  | nil => rfl
  | cons l ls ih =>
    by_cases hp : (copyrightPat eol).isPrefixOf l
    · simp [stripLoop, hp, List.filter, ih]
    · simp [stripLoop, hp, List.filter, ih, joinNL_cons]

theorem stripLoop_of_clean (eol : GoStr) (ls : List GoStr)
    (h : ∀ l ∈ ls, (copyrightPat eol).isPrefixOf l = false) :
    stripLoop eol ls = joinNL ls := by
  rw [stripLoop_eq_filter]
  congr 1
  apply List.filter_eq_self.mpr
  intro l hl
  simp [h l hl]

theorem removeAux_congr (pat : GoStr) (hp : pat ≠ []) :
    ∀ n m (s : GoStr), s.length ≤ n → s.length ≤ m →
      removeAux pat n s = removeAux pat m s := by
  intro n
  induction n with
  | zero =>
    intro m s hn _
    have hs : s = [] := List.eq_nil_of_length_eq_zero (Nat.le_zero.mp hn)
    subst hs
    cases m <;> rfl
  | succ n ih =>
    intro m s hn hm
    cases s with
    | nil => cases m <;> rfl
    | cons c cs =>
      have hlen : 1 ≤ (c :: cs).length := by simp
      cases m with
      | zero => omega
      | succ m =>
        have hppos : 1 ≤ pat.length := List.length_pos.mpr hp
        by_cases hpre : pat.isPrefixOf (c :: cs)
        · simp only [removeAux, if_pos hpre]
          apply ih
          · rw [List.length_drop]
            simp only [List.length_cons] at hn ⊢
            omega
          · rw [List.length_drop]
            simp only [List.length_cons] at hm ⊢
            omega
        · simp only [removeAux, if_neg hpre]
          rw [ih m cs (by simpa using Nat.le_of_succ_le_succ hn)
            (by simpa using Nat.le_of_succ_le_succ hm)]

/-- Deleting occurrences of a non-empty pattern from a string that starts
with the pattern: the leading occurrence is removed and scanning
continues on the remainder. -/
theorem removeAllGo_head (pat rest : GoStr) (hp : pat ≠ []) :
    removeAllGo pat (pat ++ rest) = removeAllGo pat rest := by
  unfold removeAllGo
  rw [if_neg hp, if_neg hp]
  cases pat with
  | nil => exact absurd rfl hp
  | cons p ps =>
    have hpre : (p :: ps).isPrefixOf ((p :: ps) ++ rest) :=
      List.isPrefixOf_iff_prefix.mpr (List.prefix_append _ _)
    have hdrop : ((p :: ps) ++ rest).drop (p :: ps).length = rest :=
      List.drop_left _ _
    rw [List.cons_append] at hpre hdrop ⊢
    rw [List.length_cons]
    have hstep : removeAux (p :: ps) ((ps ++ rest).length + 1) (p :: (ps ++ rest)) =
        removeAux (p :: ps) (ps ++ rest).length
          ((p :: (ps ++ rest)).drop (p :: ps).length) := by
      simp only [removeAux, if_pos hpre]
    rw [hstep, hdrop]
    apply removeAux_congr _ hp
    · simp only [List.length_append]
      omega
    · exact Nat.le_refl _

theorem removeAux_of_no_occurrence (pat : GoStr) :
    ∀ n (s : GoStr), indexOfGo pat s = none → removeAux pat n s = s := by
  intro n
  induction n with
  | zero => intro s _; rfl
  | succ n ih =>
    intro s h
    cases s with
    | nil => rfl
    | cons c cs =>
      unfold indexOfGo at h
      by_cases hpre : pat.isPrefixOf (c :: cs)
      · rw [if_pos hpre] at h; exact absurd h (by simp)
      · rw [if_neg hpre] at h
        have hcs : indexOfGo pat cs = none := by
          rcases hx : indexOfGo pat cs with _ | i
          · rfl
          · rw [hx] at h; simp at h
        simp only [removeAux, if_neg hpre]
        rw [ih cs hcs]

theorem removeAllGo_of_no_occurrence (pat s : GoStr)
    (h : indexOfGo pat s = none) : removeAllGo pat s = s := by
  unfold removeAllGo
  split
  · rfl
  · exact removeAux_of_no_occurrence pat s.length s h

theorem collapseGo_of_lt (s : GoStr)
    (h : (indexOfGo (gs "\npackage") s).getD 0 < 3) : collapseGo s = s := by
  unfold collapseGo
  rcases hidx : indexOfGo (gs "\npackage") s with _ | i
  · rfl
  · have hi : i < 3 := by rw [hidx] at h; simpa using h
    show (if 3 ≤ i then trimRightNlGo (s.take i) ++ s.drop i else s) = s
    rw [if_neg (by omega)]

theorem trimRightNlGo_getLast (s : GoStr) :
    (trimRightNlGo s).getLast? ≠ some '\n' := by
  unfold trimRightNlGo
  rw [getLast?_reverse_eq_head?]
  intro h
  have := head?_dropWhile h
  simp at this

theorem renderTemplate_nl (o y s : GoStr) :
    renderTemplate o y ('\n' :: s) = '\n' :: renderTemplate o y s := by
  have h1 : ownerPat.isPrefixOf ('\n' :: s) = false := by
    simp only [ownerPat, List.isPrefixOf]
    have : ('@' == '\n') = false := by decide
    simp [this]
  have h2 : yearPat.isPrefixOf ('\n' :: s) = false := by
    simp only [yearPat, List.isPrefixOf]
    have : ('@' == '\n') = false := by decide
    simp [this]
  unfold renderTemplate
  simp only [List.length_cons, renderAux, h1, h2, Bool.false_eq_true, if_false]

theorem prependEOLComment_nl (eol s : GoStr) :
    prependEOLComment eol ('\n' :: s) =
      trimSpaceGo (eol ++ [' ']) ++ '\n' :: prependEOLComment eol s := by
  rw [prependEOLComment_eq, prependEOLComment_eq]
  have hsplit : splitLinesGo ('\n' :: s) = [] :: splitLinesGo s := by
    unfold splitLinesGo
    simp [splitNl, dropCR]
  rw [hsplit, List.map_cons, joinNL_cons]

theorem length_filterMap_eq {α ε : Type} (f : α → Option ε) (l : List α) :
    (l.filterMap f).length = (l.filter (fun a => (f a).isSome)).length := by
  induction l with
  | nil => rfl
  | cons a t ih =>
    rcases hf : f a with _ | e
    · simp [List.filterMap_cons, List.filter, hf, ih]
    · simp [List.filterMap_cons, List.filter, hf, ih]

theorem splitLinesGo_nl_cons (s : GoStr) :
    splitLinesGo ('\n' :: s) = [] :: splitLinesGo s := by
  unfold splitLinesGo
  simp [splitNl, dropCR]

/-! ### The claims -/

/-- C6: for a license identifier with no header template, `removeLicense`
returns at once with a nil error and performs no write, so the target
file's content is untouched, whatever the comment style and whatever the
file holds (or whether it is even readable). -/
theorem remove_headerless_noop (eol : GoStr) (readResult : Option GoStr) :
    removeLicenseGo none eol readResult = (none, none) := rfl

/-- C7: `Dump` errors exactly when the full-text asset is absent; on
success it returns the `.copyright` asset (empty when absent) prepended
to the full text, with the owner/year placeholders substituted across
the concatenation — illustrated on a concrete template. -/
theorem dump_fulltext_required :
    (∀ (copyrightAsset : Option GoStr) (o y : GoStr),
      DumpGo none copyrightAsset o y = none) ∧
    (∀ (ft : GoStr) (copyrightAsset : Option GoStr) (o y : GoStr),
      DumpGo (some ft) copyrightAsset o y =
        some (renderTemplate o y (copyrightAsset.getD [] ++ ft))) ∧
    DumpGo (some (gs "full text (c) @@year@@ @@owner@@\n"))
        (some (gs "Copyright @@owner@@\n")) (gs "Test") (gs "2026") =
      some (gs "Copyright Test\nfull text (c) 2026 Test\n") :=
  ⟨fun _ _ _ => rfl, fun _ _ _ _ => rfl, by decide⟩

/-- C9: a detect batch over N files yields exactly N result entries (one
per file, failed ones included), the aggregate holds exactly the M
per-file failures, and the aggregate is nil exactly when M = 0; no
failure stops the others from being attempted (every file contributes
its entry). -/
theorem detect_batch_complete {α ε : Type} (files : List α)
    (run : α → LicenseType × Option ε) :
    ((DetectGo files run).1.length = files.length) ∧
    (((DetectGo files run).2.getD []).length =
      (files.filter (fun f => ((run f).2).isSome)).length) ∧
    ((DetectGo files run).2 = none ↔
      (files.filter (fun f => ((run f).2).isSome)).length = 0) := by
  have h1 : (DetectGo files run).1 = files.map (fun f => (f, (run f).1)) := rfl
  have h2 : (DetectGo files run).2 =
      (if (files.filterMap (fun f => (run f).2)).isEmpty then none
       else some (files.filterMap (fun f => (run f).2))) := rfl
  have hM : (files.filterMap (fun f => (run f).2)).length =
      (files.filter (fun f => ((run f).2).isSome)).length :=
    length_filterMap_eq _ _
  refine ⟨by rw [h1]; simp, ?_, ?_⟩
  · rw [h2]
    by_cases hemp : (files.filterMap (fun f => (run f).2)).isEmpty
    · have hnil : files.filterMap (fun f => (run f).2) = [] :=
        List.isEmpty_iff.mp hemp
      rw [if_pos hemp, ← hM, hnil]
      rfl
    · rw [if_neg hemp, ← hM]
      rfl
  · rw [h2, ← hM]
    by_cases hemp : (files.filterMap (fun f => (run f).2)).isEmpty
    · have hnil : files.filterMap (fun f => (run f).2) = [] :=
        List.isEmpty_iff.mp hemp
      rw [if_pos hemp, hnil]
      simp
    · rw [if_neg hemp]
      have hne : files.filterMap (fun f => (run f).2) ≠ [] := by
        intro hx
        exact hemp (by simp [hx])
      constructor
      · intro hx; exact absurd hx (by simp)
      · intro hx; exact absurd (List.eq_nil_of_length_eq_zero hx) hne

/-- C8: whenever the external classifier reports
`ErrUnrecognizedLicense` on the normalized leading comment text — in
particular on empty text and on text matching no catalog license —
`detectLicense` returns the `unknown` sentinel together with a nil
error: a no-match is a result value, not an error. -/
theorem classify_unrecognized_unknown (guess : GoStr → GuessOutcome) (content : GoStr)
    (h : guess (trimSpaceGo (normalizeLeading (splitLinesGo content))) =
      GuessOutcome.unrecognized) :
    detectLicenseGo guess (some content) = (LicenseType.unknown, none) := by
  have hred : detectLicenseGo guess (some content) =
      (match guess (trimSpaceGo (normalizeLeading (splitLinesGo content))) with
       | GuessOutcome.unrecognized => (LicenseType.unknown, none)
       | GuessOutcome.failure => (LicenseType.unknown, some ())
       | GuessOutcome.matched t => (mapLib t, none)) := rfl
  rw [hred, h]

/-- C8 witness: a classifier that recognizes nothing yields
`(unknown, nil)` on the empty file. -/
theorem classify_unrecognized_unknown_witness :
    detectLicenseGo (fun _ => GuessOutcome.unrecognized) (some []) =
      (LicenseType.unknown, none) :=
  classify_unrecognized_unknown (fun _ => GuessOutcome.unrecognized) [] rfl

/-- C4: the code, not the claim, is wrong here.  `removeLicense` assigns
the `ioutil.ReadFile` error but never checks it: on a failed read (for a
license with a header template, e.g. mpl2) it carries on with the empty
byte slice, WRITES the post-processed empty content back — truncating
the target file — and returns a nil error, instead of propagating the
read failure and leaving the file alone. -/
theorem remove_read_error_truncates :
    removeLicenseGo (some mpl2Header) (gs "//") none = (some [], none) := by decide

/-- C3: `removeLicense` (for a license with a header template) runs its
scanner loop over every line of the file and drops exactly the lines
whose bytes start with the caller-supplied comment style followed by
`" Copyright"`; the remaining pipeline (header-block deletion, newline
collapse) operates on the joined kept lines, none of which carries that
prefix. -/
theorem remove_strips_copyright_lines (eol h content : GoStr) :
    removeLicenseGo (some h) eol (some content) =
      (some (collapseGo (removeAllGo (prependEOLComment eol h)
        (joinNL ((splitLinesGo content).filter
          (fun l => ! (copyrightPat eol).isPrefixOf l))))), none) ∧
    ((splitLinesGo content).filter
      (fun l => ! (copyrightPat eol).isPrefixOf l)).all
        (fun l => ! (copyrightPat eol).isPrefixOf l) = true := by
  constructor
  · show (some (removeLicensePure h eol content), (none : Option Unit)) = _
    unfold removeLicensePure
    rw [stripLoop_eq_filter]
  · rw [List.all_eq_true]
    intro l hl
    exact (List.mem_filter.mp hl).2

/-- C10: the copyright-line stripping applies to the whole file, not
only the leading block: a line starting with `eol + " Copyright"` is
deleted by `removeLicense` wherever it sits, here between arbitrary
surrounding line blocks `a` and `b`. -/
theorem remove_strips_midfile_copyright (eol h : GoStr) (a b : List GoStr) (x : GoStr)
    (ha : ∀ l ∈ a ++ b, goodLine l) (hx : goodLine x)
    (hpre : (copyrightPat eol).isPrefixOf x = true) :
    removeLicenseGo (some h) eol (some (joinNL (a ++ x :: b))) =
      removeLicenseGo (some h) eol (some (joinNL (a ++ b))) := by
  have hgood1 : ∀ l ∈ a ++ x :: b, goodLine l := by
    intro l hl
    rcases List.mem_append.mp hl with hl | hl
    · exact ha l (List.mem_append_left b hl)
    · rcases List.mem_cons.mp hl with hl | hl
      · exact hl ▸ hx
      · exact ha l (List.mem_append_right a hl)
  have key : removeLicensePure h eol (joinNL (a ++ x :: b)) =
      removeLicensePure h eol (joinNL (a ++ b)) := by
    unfold removeLicensePure
    rw [splitLinesGo_joinNL _ hgood1, splitLinesGo_joinNL _ ha,
      stripLoop_eq_filter, stripLoop_eq_filter, List.filter_append,
      List.filter_append, List.filter_cons]
    simp [hpre]
  show (some (removeLicensePure h eol (joinNL (a ++ x :: b))), (none : Option Unit)) =
    (some (removeLicensePure h eol (joinNL (a ++ b))), (none : Option Unit))
  rw [key]

/-- Modelled from the spec (§4.2 Insert, steps 1-3): rendered copyright
block, then rendered header block, "separated by a blank line when both
present", then one additional blank line, then the original file content
unchanged.  Written from the spec's words, to be compared with
`insertLicensePure`, which is translated from the source. -/
def insertLicenseSpec (copyrightAsset headerAsset : Option GoStr)
    (o y eol content : GoStr) : GoStr :=
  (match copyrightAsset with
   | none => []
   | some cp => prependEOLComment eol (renderTemplate o y cp)) ++
  (if copyrightAsset.isSome && headerAsset.isSome then gs "\n" else []) ++
  (match headerAsset with
   | none => []
   | some hd => prependEOLComment eol (renderTemplate o y hd)) ++
  gs "\n" ++ content

/-- C2 counterexample: with both a copyright and a header template the
source does not separate the two blocks by a blank line; the separator
line it emits is `TrimSpace(commentStyle + " ")` — the comment token
itself (here `"//"`), because the blank separator line is fed through
the comment-prefixing loop. -/
theorem insert_separator_cex :
    insertLicensePure (some (gs "Copyright (c) @@year@@ @@owner@@")) (some (gs "Hello"))
      (gs "T") (gs "2026") (gs "//") (gs "x") ≠
    insertLicenseSpec (some (gs "Copyright (c) @@year@@ @@owner@@")) (some (gs "Hello"))
      (gs "T") (gs "2026") (gs "//") (gs "x") := by decide

/-- C2 amended: Insert produces the comment-prefixed rendered copyright
block (when present), then — when both blocks are present — a separator
line holding the trimmed comment token (not a blank line), then the
comment-prefixed rendered header block (when present), then one
additional blank line, then the original content byte-for-byte unchanged
(the substitution touches only the templates). -/
theorem insert_layout (cp hd o y eol c : GoStr) :
    (insertLicensePure (some cp) (some hd) o y eol c =
      prependEOLComment eol (renderTemplate o y cp) ++
        trimSpaceGo (eol ++ [' ']) ++ '\n' ::
          (prependEOLComment eol (renderTemplate o y hd) ++ '\n' :: c)) ∧
    (insertLicensePure (some cp) none o y eol c =
      prependEOLComment eol (renderTemplate o y cp) ++ '\n' :: c) ∧
    (insertLicensePure none (some hd) o y eol c =
      prependEOLComment eol (renderTemplate o y hd) ++ '\n' :: c) ∧
    (insertLicensePure none none o y eol c = '\n' :: c) := by
  refine ⟨?_, by simp [insertLicensePure], by rfl, by rfl⟩
  show (prependEOLComment eol (renderTemplate o y cp) ++
    prependEOLComment eol (renderTemplate o y (gs "\n" ++ hd))) ++ '\n' :: c = _
  have hcons : gs "\n" ++ hd = '\n' :: hd := rfl
  rw [hcons, renderTemplate_nl, prependEOLComment_nl]
  simp [List.append_assoc]

/-- The branch of `collapseGo` that actually rewrites: when the first
`"\npackage"` occurrence sits at index ≥ 3, every trailing newline of the
prefix is removed. -/
theorem collapseGo_of_ge (s : GoStr) (i : Nat)
    (hidx : indexOfGo (gs "\npackage") s = some i) (h3 : 3 ≤ i) :
    collapseGo s = trimRightNlGo (s.take i) ++ s.drop i := by
  unfold collapseGo
  rw [hidx]
  show (if 3 ≤ i then trimRightNlGo (s.take i) ++ s.drop i else s) = _
  rw [if_pos h3]

/-- C5 counterexample: `Remove` on `"a\n\n\npackage main\n"` (two blank
lines before the declaration) yields `"a\npackage main\n"` — the blank
lines are deleted outright, leaving a single newline and NO blank line,
not "exactly a single blank line" as claimed. -/
theorem collapse_cex :
    (removeLicenseGo (some (gs "H")) (gs "//")
      (some (gs "a\n\n\npackage main\n"))).1 = some (gs "a\npackage main\n") ∧
    (gs "a\npackage main\n" : GoStr) ≠ gs "a\n\npackage main\n" := by decide

/-- C5 amended: when the first `"\npackage"` occurrence in the content
remaining after the strip and header-deletion stages sits at index ≥ 3,
`Remove` deletes the whole run of newlines preceding it, so that no
blank line (indeed not even a trailing newline on the preceding text)
remains before the single line break of the marker; occurrences at index
< 3 are left untouched. -/
theorem collapse_no_blank_line (h eol c : GoStr) (i : Nat)
    (hidx : indexOfGo (gs "\npackage")
      (removeAllGo (prependEOLComment eol h)
        (stripLoop eol (splitLinesGo c))) = some i)
    (h3 : 3 ≤ i) :
    (removeLicenseGo (some h) eol (some c)).1 =
      some (trimRightNlGo ((removeAllGo (prependEOLComment eol h)
        (stripLoop eol (splitLinesGo c))).take i) ++
        (removeAllGo (prependEOLComment eol h)
          (stripLoop eol (splitLinesGo c))).drop i) ∧
    (trimRightNlGo ((removeAllGo (prependEOLComment eol h)
      (stripLoop eol (splitLinesGo c))).take i)).getLast? ≠ some '\n' := by
  refine ⟨?_, trimRightNlGo_getLast _⟩
  show some (removeLicensePure h eol c) = _
  unfold removeLicensePure
  rw [collapseGo_of_ge _ i hidx h3]

/-- C5 witness: the amended collapse behaviour at the concrete input of
the counterexample. -/
theorem collapse_no_blank_line_witness :
    (removeLicenseGo (some (gs "H")) (gs "//")
      (some (gs "a\n\n\npackage main\n"))).1 =
      some (trimRightNlGo ((removeAllGo (prependEOLComment (gs "//") (gs "H"))
        (stripLoop (gs "//") (splitLinesGo (gs "a\n\n\npackage main\n")))).take 3) ++
        (removeAllGo (prependEOLComment (gs "//") (gs "H"))
          (stripLoop (gs "//") (splitLinesGo (gs "a\n\n\npackage main\n")))).drop 3) :=
  (collapse_no_blank_line (gs "H") (gs "//") (gs "a\n\n\npackage main\n") 3
    (by decide) (by decide)).1

/-- C1 counterexample: the round-trip is not the identity.  With the mpl2
header (pinned by the repository's own test), owner `Test`, comment style
`//` and EMPTY original content, `Remove (Insert content)` writes a single
newline, not the original empty content — exactly the behaviour the
repository's `TestSetUnset` asserts (`equals(t, "\n", string(data))`). -/
theorem roundtrip_cex :
    removeLicenseGo (some mpl2Header) (gs "//")
      (insertLicenseGo none (some mpl2Header) (gs "Test") (gs "2014") (gs "//")
        (some [])).1 = (some ['\n'], none) ∧
    (['\n'] : GoStr) ≠ [] := by decide

/-- C1 amended: the round-trip is the identity only up to one extra
leading newline.  For a license with a non-empty header template and no
copyright template, when the comment style has no newline, the header
has no placeholders (`renderTemplate` fixes it), no line of the inserted
file starts with `commentStyle + " Copyright"`, the content is
scanner-clean (splitting and re-joining its lines reproduces it), the
rendered header does not occur inside `"\n" + content`, and the first
`"\npackage"` occurrence of `"\n" + content` (if any) is at index < 3:
`Remove (Insert content) = "\n" + content`, which differs from the
original content. -/
theorem roundtrip_extra_newline (hd o y eol c : GoStr)
    (hnl : '\n' ∉ eol)
    (hrender : renderTemplate o y hd = hd)
    (hclean : ∀ l ∈ splitLinesGo (prependEOLComment eol hd ++ '\n' :: c),
      (copyrightPat eol).isPrefixOf l = false)
    (hc : joinNL (splitLinesGo c) = c)
    (hocc : indexOfGo (prependEOLComment eol hd) ('\n' :: c) = none)
    (hpkg : (indexOfGo (gs "\npackage") ('\n' :: c)).getD 0 < 3) :
    removeLicensePure hd eol (insertLicensePure none (some hd) o y eol c) =
      '\n' :: c ∧ '\n' :: c ≠ c := by
  have hins : insertLicensePure none (some hd) o y eol c =
      prependEOLComment eol hd ++ '\n' :: c := by
    show prependEOLComment eol (renderTemplate o y hd) ++ '\n' :: c = _
    rw [hrender]
  have hgood : ∀ l ∈ (splitLinesGo hd).map
      (fun line => trimSpaceGo (eol ++ ' ' :: line)), goodLine l :=
    prependEOL_lines_good eol hd hnl
  have hsplit : splitLinesGo (prependEOLComment eol hd ++ '\n' :: c) =
      ((splitLinesGo hd).map (fun line => trimSpaceGo (eol ++ ' ' :: line))) ++
        [] :: splitLinesGo c := by
    rw [prependEOLComment_eq eol hd,
      splitLinesGo_joinNL_append _ ('\n' :: c) hgood, splitLinesGo_nl_cons]
  constructor
  · rw [hins]
    unfold removeLicensePure
    have hclean2 : ∀ l ∈ ((splitLinesGo hd).map
        (fun line => trimSpaceGo (eol ++ ' ' :: line))) ++ [] :: splitLinesGo c,
        (copyrightPat eol).isPrefixOf l = false := by
      intro l hl
      exact hclean l (by rw [hsplit]; exact hl)
    rw [hsplit, stripLoop_of_clean _ _ hclean2, joinNL_append, joinNL_cons, hc]
    rw [show ([] : GoStr) ++ '\n' :: c = '\n' :: c from rfl]
    rw [← prependEOLComment_eq eol hd]
    by_cases hP : prependEOLComment eol hd = []
    · rw [hP]
      rw [show removeAllGo ([] : GoStr) (([] : GoStr) ++ '\n' :: c) =
        '\n' :: c from rfl]
      exact collapseGo_of_lt _ hpkg
    · rw [removeAllGo_head _ _ hP, removeAllGo_of_no_occurrence _ _ hocc]
      exact collapseGo_of_lt _ hpkg
  · intro hEq
    have := congrArg List.length hEq
    simp at this

/-- C1 witness: the amended round trip at the mpl2 header, owner `Test`,
comment style `//`, on the content `"package main\n"`. -/
theorem roundtrip_extra_newline_witness :
    removeLicensePure mpl2Header (gs "//")
      (insertLicensePure none (some mpl2Header) (gs "Test") (gs "2014") (gs "//")
        (gs "package main\n")) = '\n' :: gs "package main\n" :=
  (roundtrip_extra_newline mpl2Header (gs "Test") (gs "2014") (gs "//")
    (gs "package main\n") (by decide) (by decide) (by decide) (by decide)
    (by decide) (by decide)).1

/-- C10 witness: a copyright line in the middle of the code, after a
non-comment line, is removed. -/
theorem remove_strips_midfile_copyright_witness :
    removeLicenseGo (some (gs "H")) (gs "//")
      (some (joinNL ([gs "code1"] ++ gs "// Copyright 2020 X" :: [gs "code2"]))) =
      removeLicenseGo (some (gs "H")) (gs "//")
        (some (joinNL ([gs "code1"] ++ [gs "code2"]))) :=
  remove_strips_midfile_copyright (gs "//") (gs "H") [gs "code1"] [gs "code2"]
    (gs "// Copyright 2020 X") (by decide) (by decide) (by decide)
